import Mathlib

/-!
Verification of the AutoMD coplanar-waveguide layout engine.

This file is a shallow embedding of the geometry-layout core of the
repository (src/autocadmd): the vector utilities (`utils.py`), the endpoint
connection protocol and section builders (`sections.py`), the component
section bookkeeping (`component.py`), the meander-fitting search of the
resonator (`resonator.py`) and the path interpreter of the transmission line
(`transmissionline.py`).

Floating point numbers are modelled as real numbers; the explicit
10-decimal-digit rounding that the source applies to rotation-matrix entries
(`utils.rotate_vec` via `np.round`, which rounds halves to even) is modelled
exactly by `roundHE`/`nround`.  Angles at the public boundary are degrees,
converted with `to_rad` exactly as in the source.
-/

namespace AutoMD

/-- A 2-d point, as in the `(2,)` numpy arrays of the source. -/
abbrev Point : Type := ℝ × ℝ

/-- Source `utils.to_rad`: degree to radian conversion, `angle * np.pi / 180.0`. -/
noncomputable def to_rad (angle : ℝ) : ℝ := angle * Real.pi / 180

/-- Round-half-to-even on the reals, the rounding mode of `np.round` at
integer scale: the nearest integer, ties going to the even one. -/
noncomputable def roundHE (x : ℝ) : ℤ :=
  if Int.fract x = 1 / 2 then (if Even ⌊x⌋ then ⌊x⌋ else ⌊x⌋ + 1) else round x

/-- Source rounding `np.round(x, 10)` with the global `rounding_precision = 10` of
`utils.py`: scale by `10^10`, round half to even, scale back. -/
noncomputable def nround (x : ℝ) : ℝ := (roundHE (x * 10 ^ 10) : ℝ) / 10 ^ 10

/-- Source `utils.rotate_vec(vec, theta)` (degree form): the rotation matrix has its
four entries rounded to 10 decimals by `np.round` before the product. -/
noncomputable def rotate_vec (v : Point) (theta : ℝ) : Point :=
  (nround (Real.cos (to_rad theta)) * v.1 + nround (-Real.sin (to_rad theta)) * v.2,
   nround (Real.sin (to_rad theta)) * v.1 + nround (Real.cos (to_rad theta)) * v.2)

/-- Source `utils.distance_two`: `sqrt(sum(square(p1 - p2)))`. -/
noncomputable def distance_two (p1 p2 : Point) : ℝ :=
  Real.sqrt ((p1.1 - p2.1) ^ 2 + (p1.2 - p2.2) ^ 2)

/-- Source `utils.center_two`: the midpoint `((p2+p1)*0.5)` componentwise. -/
noncomputable def center_two (p1 p2 : Point) : Point :=
  ((p2.1 + p1.1) * 0.5, (p2.2 + p1.2) * 0.5)

/-- Source `utils.sort_endpoints`: leftmost first, ties broken by the lower point. -/
noncomputable def sort_endpoints (p1 p2 : Point) : Point × Point :=
  if p1.1 > p2.1 then (p2, p1)
  else if p1.1 < p2.1 then (p1, p2)
  else if p1.2 > p2.2 then (p2, p1)
  else (p1, p2)

/-! ## Endpoint pairs (`sections.CPWEndpoints`) -/

/-- The state of a `CPWEndpoints` object: the two canonical docking points
and their two independent connection flags. -/
structure EP where
  ll : Point
  ru : Point
  cll : Bool
  cru : Bool

/-- Source `CPWEndpoints.connect(anchor, tol)`.  The source computes both
distances, takes `np.argmin` (ties resolved to index 0, the left-lower
point), masks with `tols ∧ ¬status`, and connects only if the argmin index
is available; otherwise it raises.  `none` models the raised exception. -/
noncomputable def connectEP (e : EP) (anchor : Point) (tol : ℝ) : Option EP :=
  let d1 := distance_two anchor e.ll
  let d2 := distance_two anchor e.ru
  let conn : ℕ := if d1 ≤ d2 then 0 else 1
  if conn = 0 ∧ (d1 ≤ tol ∧ e.cll = false) then some { e with cll := true }
  else if conn = 1 ∧ (d2 ≤ tol ∧ e.cru = false) then some { e with cru := true }
  else none

/-- Source `CPWEndpoints.get_unconnected`: the unconnected docking points, a single
unconnected one returned first. -/
def get_unconnected (e : EP) : Option Point × Option Point :=
  if e.cru = false ∧ e.cll = false then (some e.ll, some e.ru)
  else if e.cll = false then (some e.ll, none)
  else if e.cru = false then (some e.ru, none)
  else (none, none)

/-- The endpoint pair of `sections.Pad`: after shifting the pad polygons so
that the funnel mouth `end` coincides with the anchor, the source sets
`end = self.anchor` and builds `CPWEndpoints(left_lower=end, right_upper=end)`
(lines 347-355): both docking points are the anchor, both unconnected. -/
def padEndpoints (anchor : Point) : EP :=
  { ll := anchor, ru := anchor, cll := false, cru := false }

/-! ## Straight sections (`sections.CPWStraight`) -/

/-- The canonical (sorted) endpoint pair of `CPWStraight(angle, length,
gap, width, anchor)`: the four corner points of the two rectangles are
rotated by `angle` and translated to the anchor, and the endpoints are the
midpoints of the two length-wise edges, canonically sorted. -/
noncomputable def straightEndpoints (angle length gap width : ℝ) (anchor : Point) : Point × Point :=
  let half := 0.5 * width + gap
  let len := |length|
  let l0 : Point := (0, 0 - half)
  let l1 : Point := (len, 0 - half)
  let l2 : Point := (len, gap - half)
  let l3 : Point := (0, gap - half)
  let u0 : Point := (l0.1, l0.2 + (width + gap))
  let u1 : Point := (l1.1, l1.2 + (width + gap))
  let u2 : Point := (l2.1, l2.2 + (width + gap))
  let u3 : Point := (l3.1, l3.2 + (width + gap))
  let rl0 := rotate_vec l0 angle + anchor
  let rl1 := rotate_vec l1 angle + anchor
  let _rl2 := rotate_vec l2 angle + anchor
  let _rl3 := rotate_vec l3 angle + anchor
  let _ru0 := rotate_vec u0 angle + anchor
  let _ru1 := rotate_vec u1 angle + anchor
  let ru2 := rotate_vec u2 angle + anchor
  let ru3 := rotate_vec u3 angle + anchor
  let end_a := center_two rl0 ru3
  let end_b := center_two rl1 ru2
  sort_endpoints end_a end_b

/-- Membership in the line through `a` with direction angle `t` (radians). -/
def onLine (p a : Point) (t : ℝ) : Prop :=
  ∃ s : ℝ, p = (a.1 + s * Real.cos t, a.2 + s * Real.sin t)

/-! ## Section lengths -/

/-- Source `CPWStraight.length = np.abs(length)`. -/
noncomputable def straightLen (length : ℝ) : ℝ := |length|

/-- Source `CPWArc.length = np.abs(to_rad(span1 - span0) * radius)`. -/
noncomputable def arcLen (radius span0 span1 : ℝ) : ℝ :=
  |to_rad (span1 - span0) * radius|

/-- The data of `sections.CPWCap` (rounded cap): the 8-point loop shifted by
half the CPW width, rotated and translated, the fillet radius, and the
bookkeeping length, which the source sets to `self.gap`. -/
structure CapSec where
  points : List Point
  length : ℝ
  fillet : ℝ

/-- Source `sections.CPWCap(angle, gap, width, anchor)` with `rounded=True`. -/
noncomputable def capSection (gap width angle : ℝ) (anchor : Point) : CapSec :=
  let half := 0.5 * width + gap
  let base : List Point :=
    [(0, 0), (gap, 0), (gap * 2, gap), (gap * 2, gap + width),
     (gap, half * 2), (0, half * 2), (0, half * 2 - gap),
     (0, half * 2 - gap - width)]
  { points := base.map (fun p => rotate_vec (p.1, p.2 - half) angle + anchor),
    length := gap,
    fillet := width * 0.5 }

/-! ## Component bookkeeping (`component.Component._add_section`) -/

/-- Python-dict assignment `d[k] = v` on an insertion-ordered association
list: overwrite in place when the key exists, append otherwise. -/
def dict_set (d : List (String × ℝ)) (k : String) (v : ℝ) : List (String × ℝ) :=
  if d.any (fun p => p.1 == k) then d.map (fun p => if p.1 == k then (k, v) else p)
  else d ++ [(k, v)]

/-- A component's section bookkeeping: the name-keyed dict `sections`, the
ordered list `_sections_list` (name and length of each section), and the
running `_actual_length`. -/
structure NComp where
  dict : List (String × ℝ)
  order : List (String × ℝ)
  actual : ℝ

/-- Source `Component._add_section(section)`: unconditionally assigns into the
dict, appends to the list and adds the section's length.  There is no
duplicate-name check and no exception path. -/
def add_section (c : NComp) (name : String) (len : ℝ) : NComp :=
  { dict := dict_set c.dict name len,
    order := c.order ++ [(name, len)],
    actual := c.actual + len }

/-! ## Path interpreter (`transmissionline.TransmissionLine._generate_cpw_from_path`) -/

/-- One pseudocode step of a transmission-line path. -/
inductive PElem : Type
  | pstraight (length : ℚ)
  | pleft (radius : ℚ) (angle : ℚ)
  | pright (radius : ℚ) (angle : ℚ)

/-- A section emitted by the path interpreter: a straight at the running
heading, or an arc with its degree span and `straighten_other_end` flag. -/
inductive Emitted : Type
  | estraight (length : ℚ) (angle : ℚ)
  | earc (span0 : ℚ) (span1 : ℚ) (radius : ℚ) (soe : Bool)
  deriving DecidableEq

/-- One iteration of the interpreter loop at running heading
`current_angle` (degrees): the emitted section and the new heading. -/
def stepPath (heading : ℚ) (e : PElem) : Emitted × ℚ :=
  match e with
  | .pstraight len => (.estraight len heading, heading)
  | .pright r a => (.earc (heading + a + 90) (heading + 90) r true, heading - a)
  | .pleft r a => (.earc (heading - 90) (heading + a - 90) r false, heading + a)

/-- The interpreter run over a whole path from an initial heading: the list
of emitted sections and the final heading. -/
def runPath : ℚ → List PElem → List Emitted × ℚ
  | heading, [] => ([], heading)
  | heading, e :: rest =>
    let st := stepPath heading e
    let tail := runPath st.2 rest
    (st.1 :: tail.1, tail.2)

/-! ## The meander-fitting search (`resonator.Resonator._generate_meanders`)

The resonator claims only observe section lengths, the running
`_actual_length` accumulator and the `generated` flag, so the resonator
pipeline is embedded as the sequence of section lengths it emits (each
length the exact value the corresponding section constructor would store:
`straightLen`, `arcLen`, and `gap` for the cap, cf. `capSection`). -/

/-- The end style of a resonator, `end ∈ ['arc', 'straight', 'none']`. -/
inductive EndStyle : Type
  | arc
  | straight
  | noEnd
  deriving DecidableEq

/-- The remaining length budget `m_len` of one search iteration.  The
source assigns `m_len` only in the `end == 'arc'` and `end == 'straight'`
branches; for `end == 'none'` the variable is unbound and the following
read raises `NameError` — modelled by `none`. -/
noncomputable def mlenOpt (length used fcl R : ℝ) (e : EndStyle) (h : ℝ) : Option ℝ :=
  match e with
  | .arc => some (length - (used + 2 * Real.pi * R + h / 2 - R + fcl))
  | .straight => some (length - (used + 1.5 * Real.pi * R + h / 2 - R + fcl))
  | .noEnd => none

/-- Outcome of the shrink-and-retry loop: acceptance with the repeat count
`n_segments`, the accepted `m_height` and `last_height`; exhaustion of the
iteration bound (`not success` after the loop); or the `NameError` crash. -/
inductive SearchOutcome : Type
  | found (n : ℤ) (h : ℝ) (lastH : ℝ)
  | failed
  | crashed

/-- The `while not success and count < 1000` loop of `_generate_meanders`:
each iteration computes `l_segment = π R + m_height`, the budget `m_len`,
`n_segments = int(floor(m_len / l_segment))`, accepts when
`m_len - n_segments * l_segment ≤ m_height`, and otherwise shrinks
`m_height *= 0.95`.  The fuel is the residual iteration budget. -/
noncomputable def searchLoop (length used fcl R : ℝ) (e : EndStyle) : ℕ → ℝ → SearchOutcome
  | 0, _ => .failed
  | fuel + 1, h =>
    let l := Real.pi * R + h
    match mlenOpt length used fcl R e h with
    | none => .crashed
    | some m =>
      let n : ℤ := ⌊m / l⌋
      if m - n * l ≤ h then .found n h (m - n * l)
      else searchLoop length used fcl R e fuel (h * 0.95)

/-- The component state the resonator claims observe: the lengths of the
sections in `_sections_list`, the `_actual_length` accumulator and the
`generated` flag (initialised `False` in `Component.__init__`). -/
structure RState where
  lens : List ℝ
  actual : ℝ
  generated : Bool

/-- Source `Component._add_section` restricted to what `RState` tracks: append the
section's length and add it to `_actual_length`. -/
def addLen (s : RState) (x : ℝ) : RState :=
  { lens := s.lens ++ [x], actual := s.actual + x, generated := s.generated }

/-- The sections added before the meander search runs:
`_generate_transmission_coupler` (straight of `coupling_length`) and
`_generate_spacer_line` (arc spanning (180°, 270°) and straight of
`coupling_spacer`), starting from the freshly initialised component. -/
noncomputable def preMeanderState (R cl cs : ℝ) : RState :=
  addLen (addLen (addLen { lens := [], actual := 0, generated := false }
    (straightLen cl)) (arcLen R 180 270)) (straightLen cs)

/-- The lengths of the sections `_generate_meanders` emits once the search
has accepted `(n_segments, m_height, last_height)`: the entry arc
(270°, 360°), the entry half-straight of `m_height/2 - arc_radius`, then for
`i in range(n_segments + 1)` an alternating 180° arc and a straight of
`m_height` (`last_height` when `i == n_segments`), and for `end == 'arc'` a
closing 90° arc whose span depends on the parity of `n_segments`. -/
noncomputable def meanderLens (R h lastH : ℝ) (n : ℤ) (e : EndStyle) : List ℝ :=
  [arcLen R 270 360, straightLen (h / 2 - R)]
  ++ (((List.range (n + 1).toNat).map (fun (i : ℕ) =>
        [arcLen R 180 (if i % 2 = 0 then 0 else 360),
         straightLen (if (i : ℤ) = n then lastH else h)])).flatten)
  ++ (match e with
      | .arc => [arcLen R 180 (if n % 2 = 0 then 270 else 90)]
      | _ => [])

/-- Outcome of `Resonator.generate`: success (which in the source does NOT
set `generated = True`), failure with the rolled-back state
(`sections = {}`, `_sections_list = []`, `_actual_length` untouched), or
the uncaught `NameError` crash from the `end == 'none'` search. -/
inductive GenOutcome : Type
  | ok (s : RState)
  | failedGen (s : RState)
  | crashed

/-- Source `Resonator.generate()` for a resonator with target `length`, gap `g`,
arc radius `R`, coupling length `cl`, coupling spacer `cs`, maximum height
`Hmax` and end style `e`: builds the coupler and spacer, runs the meander
search with `final_component_len = self.gap` and the initial height
`Hmax - 2R`; on success emits the meander sections and the end cap (whose
length is its `gap`, see `capSection`); on failure discards the section
list while leaving `_actual_length` as it was. -/
noncomputable def resonatorGenerate (length g R cl cs Hmax : ℝ) (e : EndStyle) : GenOutcome :=
  let s0 := preMeanderState R cl cs
  match searchLoop length s0.actual g R e 1000 (Hmax - 2 * R) with
  | .found n h lastH => .ok (addLen ((meanderLens R h lastH n e).foldl addLen s0) g)
  | .failed => .failedGen { lens := [], actual := s0.actual, generated := false }
  | .crashed => .crashed

/-- The summed section lengths of a successful generation, `none` when the
generation did not succeed. -/
noncomputable def okSum : GenOutcome → Option ℝ
  | .ok s => some s.lens.sum
  | _ => none

/-! ## Helper lemmas for the resonator pipeline -/

/-- Arc lengths for a nonnegative radius: `|Δspan| · π/180 · R`. -/
theorem arcLen_of_nonneg (R a b : ℝ) (hR : 0 ≤ R) :
    arcLen R a b = |b - a| * (Real.pi / 180) * R := by
  unfold arcLen to_rad
  rw [abs_mul, abs_of_nonneg hR, abs_div, abs_mul, abs_of_nonneg Real.pi_pos.le]
  rw [show |(180 : ℝ)| = 180 by norm_num]
  ring

theorem foldl_addLen (l : List ℝ) : ∀ s : RState,
    (l.foldl addLen s).lens = s.lens ++ l ∧
    (l.foldl addLen s).actual = s.actual + l.sum ∧
    (l.foldl addLen s).generated = s.generated := by
  induction l with
  | nil => intro s; simp
  | cons x xs ih =>
    intro s
    simp only [List.foldl_cons, List.sum_cons]
    obtain ⟨h1, h2, h3⟩ := ih (addLen s x)
    refine ⟨?_, ?_, ?_⟩
    · rw [h1]; simp [addLen]
    · rw [h2]; simp [addLen]; ring
    · rw [h3]; rfl

/-- The section-length list of the pre-meander state sums to its
accumulator. -/
theorem preMeander_lens_sum (R cl cs : ℝ) :
    (preMeanderState R cl cs).lens.sum = (preMeanderState R cl cs).actual := by
  simp [preMeanderState, addLen]
  ring

/-- One search iteration that accepts. -/
theorem searchLoop_step_found (length used fcl R : ℝ) (e : EndStyle)
    (fuel : ℕ) (h0 m lastH : ℝ) (n : ℤ)
    (hm : mlenOpt length used fcl R e h0 = some m)
    (hn : ⌊m / (Real.pi * R + h0)⌋ = n)
    (hcond : m - (n : ℝ) * (Real.pi * R + h0) ≤ h0)
    (hlast : m - (n : ℝ) * (Real.pi * R + h0) = lastH) :
    searchLoop length used fcl R e (fuel + 1) h0 = .found n h0 lastH := by
  simp only [searchLoop, hm]
  rw [hn, if_pos hcond, hlast]

/-- One search iteration that rejects and shrinks the height. -/
theorem searchLoop_step_shrink (length used fcl R : ℝ) (e : EndStyle)
    (fuel : ℕ) (h0 m : ℝ)
    (hm : mlenOpt length used fcl R e h0 = some m)
    (hcond : ¬ (m - (⌊m / (Real.pi * R + h0)⌋ : ℝ) * (Real.pi * R + h0) ≤ h0)) :
    searchLoop length used fcl R e (fuel + 1) h0
      = searchLoop length used fcl R e fuel (h0 * 0.95) := by
  simp only [searchLoop, hm]
  rw [if_neg hcond]

/-- Acceptance inversion: a `found` result always carries
`n = ⌊m_len / l_segment⌋` and `last_height = m_len - n · l_segment ≤ h`
for the budget `m_len` computed at the accepted height. -/
theorem searchLoop_found_inv (length used fcl R : ℝ) (e : EndStyle) :
    ∀ (fuel : ℕ) (h0 : ℝ) (n : ℤ) (h lastH : ℝ),
      searchLoop length used fcl R e fuel h0 = .found n h lastH →
      ∃ m, mlenOpt length used fcl R e h = some m ∧
        n = ⌊m / (Real.pi * R + h)⌋ ∧
        lastH = m - (n : ℝ) * (Real.pi * R + h) ∧ lastH ≤ h := by
  intro fuel
  induction fuel with
  | zero =>
    intro h0 n h lastH hf
    simp [searchLoop] at hf
  | succ f ih =>
    intro h0 n h lastH hf
    simp only [searchLoop] at hf
    cases hm : mlenOpt length used fcl R e h0 with
    | none => rw [hm] at hf; simp at hf
    | some m =>
      rw [hm] at hf
      simp only at hf
      by_cases hcond :
          m - (⌊m / (Real.pi * R + h0)⌋ : ℝ) * (Real.pi * R + h0) ≤ h0
      · rw [if_pos hcond] at hf
        injection hf with h1 h2 h3
        subst h1; subst h2; subst h3
        exact ⟨m, hm, rfl, rfl, hcond⟩
      · rw [if_neg hcond] at hf
        exact ih _ n h lastH hf

/-- Sum of a flattened constant two-element block over `range k`. -/
theorem constSegSum (A B : ℝ) : ∀ k : ℕ,
    (((List.range k).map (fun _ => [A, B])).flatten).sum = k * (A + B) := by
  intro k
  induction k with
  | zero => simp
  | succ j ih =>
    rw [List.range_succ]
    simp only [List.map_append, List.flatten_append, List.sum_append, ih]
    push_cast
    simp
    ring

/-- Sum of the alternating segment blocks: `N+1` arcs of length `A`, `N`
straights of `hgt` and one final straight of `lastH`. -/
theorem segLens_sum (A hgt lastH : ℝ) (N : ℕ) :
    (((List.range (N + 1)).map
        (fun i => [A, if i = N then lastH else hgt])).flatten).sum
      = (N + 1) * A + N * hgt + lastH := by
  rw [List.range_succ]
  have hcongr : (List.range N).map (fun i => [A, if i = N then lastH else hgt])
      = (List.range N).map (fun _ => [A, hgt]) := by
    apply List.map_congr_left
    intro i hi
    have hne : i ≠ N := Nat.ne_of_lt (List.mem_range.mp hi)
    simp [hne]
  simp only [List.map_append, List.flatten_append, List.sum_append, hcongr,
    constSegSum]
  simp
  ring

/-- Summed lengths of the meander sections for an accepted repeat count
`N ≥ 0`. -/
theorem meanderLens_sum (R h lastH : ℝ) (N : ℕ) (e : EndStyle) (hR : 0 ≤ R) :
    (meanderLens R h lastH (N : ℤ) e).sum
      = Real.pi / 2 * R + |h / 2 - R|
        + (((N : ℝ) + 1) * (Real.pi * R) + (N : ℝ) * |h| + |lastH|)
        + (match e with | .arc => Real.pi / 2 * R | _ => 0) := by
  unfold meanderLens
  have htn : ((N : ℤ) + 1).toNat = N + 1 := by omega
  rw [htn]
  have hmap : (List.range (N + 1)).map (fun (i : ℕ) =>
        [arcLen R 180 (if i % 2 = 0 then 0 else 360),
         straightLen (if (i : ℤ) = (N : ℤ) then lastH else h)])
      = (List.range (N + 1)).map (fun i =>
        [Real.pi * R, if i = N then |lastH| else |h|]) := by
    apply List.map_congr_left
    intro i _
    have harc : arcLen R 180 (if i % 2 = 0 then 0 else 360) = Real.pi * R := by
      by_cases hp : i % 2 = 0
      · rw [if_pos hp, arcLen_of_nonneg R 180 0 hR]
        rw [show |(0 : ℝ) - 180| = 180 by norm_num]
        ring
      · rw [if_neg hp, arcLen_of_nonneg R 180 360 hR]
        rw [show |(360 : ℝ) - 180| = 180 by norm_num]
        ring
    have hstr : straightLen (if (i : ℤ) = (N : ℤ) then lastH else h)
        = if i = N then |lastH| else |h| := by
      by_cases hi : i = N
      · simp [hi, straightLen]
      · have hi' : ¬ ((i : ℤ) = (N : ℤ)) := by exact_mod_cast hi
        simp [hi, hi', straightLen]
    rw [harc, hstr]
  rw [hmap, List.sum_append, List.sum_append, segLens_sum (Real.pi * R) |h| |lastH| N]
  have hhead : ([arcLen R 270 360, straightLen (h / 2 - R)] : List ℝ).sum
      = Real.pi / 2 * R + |h / 2 - R| := by
    rw [arcLen_of_nonneg R 270 360 hR]
    rw [show |(360 : ℝ) - 270| = 90 by norm_num]
    simp only [List.sum_cons, List.sum_nil, add_zero, straightLen]
    ring
  rw [hhead]
  have htail : (match e with
      | EndStyle.arc => [arcLen R 180 (if (N : ℤ) % 2 = 0 then 270 else 90)]
      | _ => ([] : List ℝ)).sum
      = (match e with | EndStyle.arc => Real.pi / 2 * R | _ => 0) := by
    cases e with
    | arc =>
      by_cases hp : (N : ℤ) % 2 = 0
      · rw [if_pos hp]
        show arcLen R 180 270 + 0 = Real.pi / 2 * R
        rw [arcLen_of_nonneg R 180 270 hR]
        rw [show |(270 : ℝ) - 180| = 90 by norm_num]
        ring
      · rw [if_neg hp]
        show arcLen R 180 90 + 0 = Real.pi / 2 * R
        rw [arcLen_of_nonneg R 180 90 hR]
        rw [show |(90 : ℝ) - 180| = 90 by norm_num]
        ring
    | straight => rfl
    | noEnd => rfl
  rw [htail]

theorem inv_pi_pos : (0 : ℝ) < (Real.pi)⁻¹ := by positivity

theorem inv_pi_lt_third : (Real.pi)⁻¹ < 1 / 3 := by
  have h := Real.pi_gt_three
  rw [show (1 : ℝ) / 3 = (3 : ℝ)⁻¹ by norm_num]
  exact inv_lt_inv_of_lt (by norm_num) h

/-- The accumulator after coupler and spacer for the concrete radius
`R = π⁻¹` and zero coupler/spacer lengths. -/
theorem preMeander_actual_concrete :
    (preMeanderState (Real.pi)⁻¹ 0 0).actual = 1 / 2 := by
  simp only [preMeanderState, addLen, straightLen, abs_zero, add_zero, zero_add]
  rw [arcLen_of_nonneg _ 180 270 inv_pi_pos.le]
  rw [show |(270 : ℝ) - 180| = 90 by norm_num]
  field_simp
  ring

/-- The meander search at target `10 - 4/π`, radius `π⁻¹`, `Hmax = 4`,
zero coupler, spacer and gap, end style `straight` accepts on the first
iteration with `n_segments = 1`, `m_height = 4 - 2/π`, `last_height = 1`. -/
theorem search_found_pos_concrete :
    searchLoop (10 - 4 * (Real.pi)⁻¹) (preMeanderState (Real.pi)⁻¹ 0 0).actual 0 (Real.pi)⁻¹
        EndStyle.straight 1000 (4 - 2 * (Real.pi)⁻¹)
      = .found 1 (4 - 2 * (Real.pi)⁻¹) 1 := by
  have hne := Real.pi_ne_zero
  have hd : (0 : ℝ) < 5 - 2 * (Real.pi)⁻¹ := by
    nlinarith [inv_pi_lt_third, inv_pi_pos]
  have hl : Real.pi * (Real.pi)⁻¹ + (4 - 2 * (Real.pi)⁻¹) = 5 - 2 * (Real.pi)⁻¹ := by
    rw [mul_inv_cancel₀ hne]; ring
  rw [show (1000 : ℕ) = 999 + 1 from rfl]
  refine searchLoop_step_found _ _ _ _ _ 999 _ (6 - 2 * (Real.pi)⁻¹) _ 1 ?_ ?_ ?_ ?_
  · rw [preMeander_actual_concrete]
    simp only [mlenOpt, Option.some.injEq]
    field_simp
    ring
  · rw [hl, Int.floor_eq_iff]
    constructor
    · rw [le_div_iff hd]; push_cast; nlinarith [inv_pi_pos]
    · rw [div_lt_iff hd]; push_cast; nlinarith [inv_pi_lt_third, inv_pi_pos]
  · rw [hl]; push_cast; nlinarith [inv_pi_lt_third, inv_pi_pos]
  · rw [hl]; push_cast; ring

/-! ## C1: the meander length-sum property -/

/-- C1, amended: whenever the search accepts `(n, h, lastHeight)` with a
positive arc radius, a nonnegative repeat count and an accepted height of
at least `2R` (so that the entry half-straight is not truncated by the
absolute value in `CPWStraight`), generation succeeds and the sum of all
emitted section lengths equals the target length exactly — in particular
within 1e-6. -/
theorem c1_length_sum_amended (length g R cl cs Hmax : ℝ) (e : EndStyle)
    (n : ℤ) (h lastH : ℝ)
    (hR : 0 < R) (h2R : 2 * R ≤ h) (hn : 0 ≤ n)
    (hs : searchLoop length (preMeanderState R cl cs).actual g R e 1000 (Hmax - 2 * R)
        = .found n h lastH) :
    ∃ s : RState, resonatorGenerate length g R cl cs Hmax e = .ok s ∧
      s.lens.sum = length := by
  obtain ⟨m, hm, hneq, hlast, hle⟩ :=
    searchLoop_found_inv length _ g R e 1000 _ n h lastH hs
  have hπ := Real.pi_pos
  have hhpos : 0 < h := lt_of_lt_of_le (by linarith) h2R
  have hlpos : 0 < Real.pi * R + h := by positivity
  have hlastnn : 0 ≤ lastH := by
    rw [hlast, hneq]
    exact Int.sub_floor_div_mul_nonneg m hlpos
  obtain ⟨N, hN⟩ : ∃ N : ℕ, n = (N : ℤ) := ⟨n.toNat, (Int.toNat_of_nonneg hn).symm⟩
  subst hN
  refine ⟨addLen ((meanderLens R h lastH (N : ℤ) e).foldl addLen
    (preMeanderState R cl cs)) g, ?_, ?_⟩
  · simp only [resonatorGenerate]
    rw [hs]
  · obtain ⟨hlens, -, -⟩ :=
      foldl_addLen (meanderLens R h lastH (N : ℤ) e) (preMeanderState R cl cs)
    simp only [addLen]
    rw [hlens, List.sum_append, List.sum_append, List.sum_cons, List.sum_nil]
    rw [preMeander_lens_sum, meanderLens_sum R h lastH N e hR.le]
    rw [abs_of_nonneg (by linarith : (0 : ℝ) ≤ h / 2 - R), abs_of_nonneg hhpos.le,
      abs_of_nonneg hlastnn]
    rw [hlast]
    cases e with
    | arc =>
      simp only [mlenOpt, Option.some.injEq] at hm
      rw [← hm]
      push_cast
      ring
    | straight =>
      simp only [mlenOpt, Option.some.injEq] at hm
      rw [← hm]
      push_cast
      ring
    | noEnd => simp [mlenOpt] at hm

/-- Witness for `c1_length_sum_amended` at the converging input of
`search_found_pos_concrete`: the emitted lengths sum exactly to the
target `10 - 4/π`. -/
theorem c1_length_sum_witness :
    (0 : ℝ) < (Real.pi)⁻¹ ∧ 2 * (Real.pi)⁻¹ ≤ 4 - 2 * (Real.pi)⁻¹ ∧ (0 : ℤ) ≤ 1 ∧
    ∃ s : RState,
      resonatorGenerate (10 - 4 * (Real.pi)⁻¹) 0 (Real.pi)⁻¹ 0 0 4 EndStyle.straight
        = .ok s ∧ s.lens.sum = 10 - 4 * (Real.pi)⁻¹ :=
  ⟨inv_pi_pos, by nlinarith [inv_pi_lt_third, inv_pi_pos], by norm_num,
    c1_length_sum_amended (10 - 4 * (Real.pi)⁻¹) 0 (Real.pi)⁻¹ 0 0 4
      EndStyle.straight 1 (4 - 2 * (Real.pi)⁻¹) 1 inv_pi_pos
      (by nlinarith [inv_pi_lt_third, inv_pi_pos]) (by norm_num)
      search_found_pos_concrete⟩

/-- The meander search at target `2`, radius `π⁻¹`, `Hmax = 4`, zero
coupler, spacer and gap, end style `straight` accepts on the first
iteration — but with the NEGATIVE repeat count `n_segments = -1`, whose
`range(n_segments + 1)` loop is empty, so the accepted `last_height = 3`
is never emitted. -/
theorem search_found_neg_concrete :
    searchLoop 2 (preMeanderState (Real.pi)⁻¹ 0 0).actual 0 (Real.pi)⁻¹
        EndStyle.straight 1000 (4 - 2 * (Real.pi)⁻¹)
      = .found (-1) (4 - 2 * (Real.pi)⁻¹) 3 := by
  have hne := Real.pi_ne_zero
  have hd : (0 : ℝ) < 5 - 2 * (Real.pi)⁻¹ := by
    nlinarith [inv_pi_lt_third, inv_pi_pos]
  have hl : Real.pi * (Real.pi)⁻¹ + (4 - 2 * (Real.pi)⁻¹) = 5 - 2 * (Real.pi)⁻¹ := by
    rw [mul_inv_cancel₀ hne]; ring
  rw [show (1000 : ℕ) = 999 + 1 from rfl]
  refine searchLoop_step_found _ _ _ _ _ 999 _ (-2 + 2 * (Real.pi)⁻¹) _ (-1) ?_ ?_ ?_ ?_
  · rw [preMeander_actual_concrete]
    simp only [mlenOpt, Option.some.injEq]
    field_simp
    ring
  · rw [hl, Int.floor_eq_iff]
    constructor
    · rw [le_div_iff₀ hd]; push_cast; nlinarith [inv_pi_pos]
    · rw [div_lt_iff₀ hd]; push_cast; nlinarith [inv_pi_lt_third, inv_pi_pos]
  · rw [hl]; push_cast; nlinarith [inv_pi_lt_third, inv_pi_pos]
  · rw [hl]; push_cast; ring

/-- C1, refuted as stated: at target length 2, `Hmax = 4 > 2.1·R`,
`R = π⁻¹`, zero coupler/spacer/gap and end style `straight`, the search
accepts (with `n_segments = -1`), generation succeeds, and the emitted
section lengths sum to `3 - 2/π ≈ 2.363`, which differs from the target 2
by far more than 1e-6. -/
theorem c1_length_sum_counterexample :
    okSum (resonatorGenerate 2 0 (Real.pi)⁻¹ 0 0 4 EndStyle.straight)
      = some (3 - 2 * (Real.pi)⁻¹) ∧
    ¬ (|(3 - 2 * (Real.pi)⁻¹) - 2| ≤ 1 / 1000000) ∧
    2.1 * (Real.pi)⁻¹ < 4 := by
  refine ⟨?_, ?_, ?_⟩
  · simp only [resonatorGenerate]
    rw [search_found_neg_concrete]
    simp only [okSum, Option.some.injEq]
    obtain ⟨hlens, -, -⟩ := foldl_addLen
      (meanderLens (Real.pi)⁻¹ (4 - 2 * (Real.pi)⁻¹) 3 (-1) EndStyle.straight)
      (preMeanderState (Real.pi)⁻¹ 0 0)
    simp only [addLen]
    rw [hlens, List.sum_append, List.sum_append, List.sum_cons, List.sum_nil,
      preMeander_lens_sum, preMeander_actual_concrete]
    have hml : meanderLens (Real.pi)⁻¹ (4 - 2 * (Real.pi)⁻¹) 3 (-1) EndStyle.straight
        = [arcLen (Real.pi)⁻¹ 270 360,
           straightLen ((4 - 2 * (Real.pi)⁻¹) / 2 - (Real.pi)⁻¹)] := by
      unfold meanderLens
      rw [show ((-1 : ℤ) + 1).toNat = 0 by rfl]
      simp
    rw [hml]
    simp only [List.sum_cons, List.sum_nil]
    rw [arcLen_of_nonneg _ 270 360 inv_pi_pos.le,
      show |(360 : ℝ) - 270| = 90 by norm_num]
    simp only [straightLen]
    rw [show (4 - 2 * (Real.pi)⁻¹) / 2 - (Real.pi)⁻¹ = 2 - 2 * (Real.pi)⁻¹ by ring]
    rw [abs_of_nonneg (by nlinarith [inv_pi_lt_third, inv_pi_pos] :
      (0 : ℝ) ≤ 2 - 2 * (Real.pi)⁻¹)]
    field_simp
    ring
  · intro habs
    rw [abs_le] at habs
    nlinarith [inv_pi_lt_third, habs.2]
  · nlinarith [inv_pi_lt_third, inv_pi_pos]

/-! ## C2: non-convergence handling -/

/-- One search iteration whose budget read crashes (`end == 'none'`). -/
theorem searchLoop_step_crash (length used fcl R : ℝ) (e : EndStyle)
    (fuel : ℕ) (h0 : ℝ)
    (hm : mlenOpt length used fcl R e h0 = none) :
    searchLoop length used fcl R e (fuel + 1) h0 = .crashed := by
  simp only [searchLoop, hm]

/-- At target `2 - 1/π`, radius `π⁻¹`, zero coupler/spacer/gap and end
style `straight`, every iteration computes `m_len = -h/2`, `n = -1` and a
remainder `1 + h/2 > h` (as the height stays below 2), so the search
shrinks forever and exhausts any iteration budget. -/
theorem search_nonconv_concrete : ∀ (fuel : ℕ) (h0 : ℝ), 0 < h0 → h0 < 2 →
    searchLoop (2 - (Real.pi)⁻¹) (1 / 2) 0 (Real.pi)⁻¹ EndStyle.straight fuel h0
      = .failed := by
  intro fuel
  induction fuel with
  | zero => intro h0 _ _; rfl
  | succ f ih =>
    intro h0 hpos hlt
    have hne := Real.pi_ne_zero
    have hpp : Real.pi * (Real.pi)⁻¹ = 1 := mul_inv_cancel₀ hne
    have hm : mlenOpt (2 - (Real.pi)⁻¹) (1 / 2) 0 (Real.pi)⁻¹ EndStyle.straight h0
        = some (-(h0 / 2)) := by
      simp only [mlenOpt, Option.some.injEq]
      field_simp
      ring
    have hfl : ⌊(-(h0 / 2)) / (Real.pi * (Real.pi)⁻¹ + h0)⌋ = -1 := by
      rw [hpp, Int.floor_eq_iff]
      have hd : (0 : ℝ) < 1 + h0 := by linarith
      constructor
      · rw [le_div_iff₀ hd]; push_cast; nlinarith
      · rw [div_lt_iff₀ hd]; push_cast; nlinarith
    have hcond : ¬ ((-(h0 / 2))
          - ((⌊(-(h0 / 2)) / (Real.pi * (Real.pi)⁻¹ + h0)⌋ : ℤ) : ℝ)
            * (Real.pi * (Real.pi)⁻¹ + h0) ≤ h0) := by
      rw [hfl, hpp]
      push_cast
      intro hc
      nlinarith
    rw [searchLoop_step_shrink _ _ _ _ _ f h0 _ hm hcond]
    exact ih (h0 * 0.95) (by positivity) (by nlinarith)

/-- Calling `Resonator.generate` with `end = 'none'` crashes in the first search
iteration: `m_len` is never assigned. -/
theorem gen_crash_eval :
    resonatorGenerate 0 0 (Real.pi)⁻¹ 0 0 1 EndStyle.noEnd = GenOutcome.crashed := by
  simp only [resonatorGenerate]
  rw [show (1000 : ℕ) = 999 + 1 from rfl,
    searchLoop_step_crash 0 _ 0 (Real.pi)⁻¹ EndStyle.noEnd 999 _ rfl]

/-- A non-converging `straight` generation reports failure with an emptied
section list but with the accumulator still holding the pre-meander
length 1/2. -/
theorem gen_nonconv_eval :
    resonatorGenerate (2 - (Real.pi)⁻¹) 0 (Real.pi)⁻¹ 0 0 1 EndStyle.straight
      = .failedGen ⟨[], 1 / 2, false⟩ := by
  simp only [resonatorGenerate]
  rw [preMeander_actual_concrete]
  rw [search_nonconv_concrete 1000 (1 - 2 * (Real.pi)⁻¹)
    (by nlinarith [inv_pi_lt_third, inv_pi_pos]) (by nlinarith [inv_pi_pos])]

/-- C2: for end styles `arc`/`straight` the claim's behaviour holds — a
non-converging search makes generation report failure with the section
list discarded (second conjunct, at a concrete never-converging input) —
but for the documented end style `'none'` the claim fails on the code: the
search crashes with an unbound-variable `NameError` instead of a
ConvergenceFailure (first conjunct). -/
theorem c2_convergence_failure_code_bug :
    resonatorGenerate 0 0 (Real.pi)⁻¹ 0 0 1 EndStyle.noEnd = GenOutcome.crashed ∧
    resonatorGenerate (2 - (Real.pi)⁻¹) 0 (Real.pi)⁻¹ 0 0 1 EndStyle.straight
      = .failedGen ⟨[], 1 / 2, false⟩ :=
  ⟨gen_crash_eval, gen_nonconv_eval⟩

/-! ## C4: the generated flag -/

/-- C4, code bug: a resonator generation that completes successfully (the
converging input of `search_found_pos_concrete`) leaves a non-empty section
list but never sets the `generated` flag — `Resonator.generate` (and
`TransmissionLine.generate`) contain no `self.generated = True`, so
`Component.draw` refuses to draw the successfully generated component. -/
theorem c4_generated_flag_code_bug :
    ∃ s : RState,
      resonatorGenerate (10 - 4 * (Real.pi)⁻¹) 0 (Real.pi)⁻¹ 0 0 4 EndStyle.straight
        = .ok s ∧ s.generated = false ∧ s.lens ≠ [] := by
  refine ⟨addLen ((meanderLens (Real.pi)⁻¹ (4 - 2 * (Real.pi)⁻¹) 1 1
    EndStyle.straight).foldl addLen (preMeanderState (Real.pi)⁻¹ 0 0)) 0, ?_, ?_, ?_⟩
  · simp only [resonatorGenerate]
    rw [search_found_pos_concrete]
  · obtain ⟨-, -, hgen⟩ := foldl_addLen
      (meanderLens (Real.pi)⁻¹ (4 - 2 * (Real.pi)⁻¹) 1 1 EndStyle.straight)
      (preMeanderState (Real.pi)⁻¹ 0 0)
    simp only [addLen]
    rw [hgen]
    rfl
  · simp [addLen]

/-! ## C9 (counterexample): the rollback leaves the accumulator stale -/

/-- C9, refuted as stated: after the failed generation's rollback the
section list is empty but `_actual_length` still holds 1/2, so the
accumulator no longer equals the sum of the (zero) section lengths. -/
theorem c9_actual_length_counterexample :
    resonatorGenerate (2 - (Real.pi)⁻¹) 0 (Real.pi)⁻¹ 0 0 1 EndStyle.straight
      = .failedGen ⟨[], 1 / 2, false⟩ ∧
    ¬ ((⟨[], 1 / 2, false⟩ : RState).actual = (⟨[], 1 / 2, false⟩ : RState).lens.sum) := by
  refine ⟨gen_nonconv_eval, ?_⟩
  simp

/-! ## C5: the path interpreter's turn formulas -/

/-- C5: at running heading θ, a `left` step of angle α emits an arc with
span (θ−90°, θ+α−90°) and `straighten_other_end = False` and the heading
becomes θ+α; a `right` step emits an arc with span (θ+α+90°, θ+90°) and
`straighten_other_end = True` and the heading becomes θ−α; in particular a
single `left` 90° step from heading 0° ends at heading 90° with an arc
spanning (−90°, 0°). -/
theorem c5_path_interpreter_turns (heading a r : ℚ) :
    runPath heading [.pleft r a]
      = ([.earc (heading - 90) (heading + a - 90) r false], heading + a) ∧
    runPath heading [.pright r a]
      = ([.earc (heading + a + 90) (heading + 90) r true], heading - a) ∧
    runPath 0 [.pleft r 90] = ([.earc (-90) 0 r false], 90) := by
  refine ⟨rfl, rfl, ?_⟩
  simp only [runPath, stepPath]
  norm_num

/-! ## C7: the cap's bookkeeping length -/

/-- C7, refuted as stated: the bookkeeping length of a cap with gap 5 and
conductor width 4 is 5, not the conductor width 4. -/
theorem c7_cap_length_counterexample :
    ¬ (capSection 5 4 0 (0, 0)).length = 4 := by
  simp only [capSection]
  norm_num

/-- C7, amended: for every Cap section (any gap, width, angle, anchor), its
bookkeeping length equals the gap width, not the conductor width. -/
theorem c7_cap_length_amended (gap width angle : ℝ) (anchor : Point) :
    (capSection gap width angle anchor).length = gap := rfl

/-! ## C8: duplicate section names -/

/-- C8, refuted as stated: adding a second section named "a" is not
rejected; the ordered section list then holds two sections with the same
name, while the name-keyed dict silently keeps only the newer one. -/
theorem c8_duplicate_names_counterexample :
    (add_section (add_section ⟨[], [], 0⟩ "a" 1) "a" 2).order = [("a", 1), ("a", 2)] ∧
    (add_section (add_section ⟨[], [], 0⟩ "a" 1) "a" 2).dict = [("a", 2)] := by
  constructor
  · simp [add_section]
  · simp [add_section, dict_set]

/-- C8, amended: `_add_section` never rejects: for every component state
and every section (name, length) — duplicate name or not — it appends the
section to the ordered list and accumulates the length. -/
theorem c8_add_section_amended (c : NComp) (name : String) (len : ℝ) :
    (add_section c name len).order = c.order ++ [(name, len)] ∧
    (add_section c name len).actual = c.actual + len :=
  ⟨rfl, rfl⟩

/-! ## C9: the length accumulator invariant -/

/-- C9, amended (positive part): every `_add_section` call preserves
"accumulated length equals the sum of the section lengths in the list". -/
theorem c9_actual_length_amended (s : RState) (x : ℝ)
    (hinv : s.actual = s.lens.sum) :
    (addLen s x).actual = (addLen s x).lens.sum := by
  simp [addLen, hinv]

/-- Witness for `c9_actual_length_amended` at the freshly initialised
component state and a section of length 1. -/
theorem c9_actual_length_witness :
    ((⟨[], 0, false⟩ : RState).actual = (⟨[], 0, false⟩ : RState).lens.sum) ∧
    (addLen ⟨[], 0, false⟩ 1).actual = (addLen ⟨[], 0, false⟩ 1).lens.sum :=
  ⟨by simp, c9_actual_length_amended ⟨[], 0, false⟩ 1 (by simp)⟩

/-! ## C3: the connect protocol -/

/-- C3, refuted as stated: an endpoint pair at (0,0) and (1,0) whose
left-lower point was connected by an earlier call still has its right-upper
point within tolerance 2 of the query point (0,0) and unconnected, yet the
second `connect` call raises (returns `none`), because the source only ever
tries the docking point nearest to the query point. -/
theorem c3_connect_counterexample :
    connectEP ⟨(0, 0), (1, 0), false, false⟩ (0, 0) (1 / 1000)
      = some ⟨(0, 0), (1, 0), true, false⟩ ∧
    connectEP ⟨(0, 0), (1, 0), true, false⟩ (0, 0) 2 = none ∧
    distance_two (0, 0) ((1 : ℝ), 0) ≤ 2 ∧
    (⟨(0, 0), (1, 0), true, false⟩ : EP).cru = false := by
  have h1 : distance_two ((0 : ℝ), (0 : ℝ)) ((0 : ℝ), (0 : ℝ)) = 0 := by
    simp [distance_two]
  have h2 : distance_two ((0 : ℝ), (0 : ℝ)) ((1 : ℝ), (0 : ℝ)) = 1 := by
    have : ((0 : ℝ) - 1) ^ 2 + ((0 : ℝ) - 0) ^ 2 = 1 := by norm_num
    simp [distance_two, this]
  refine ⟨?_, ?_, ?_, rfl⟩
  · simp only [connectEP, h1, h2]
    norm_num
  · simp only [connectEP, h1, h2]
    norm_num
  · rw [h2]; norm_num

/-- C3, amended: `connect(point, tol)` succeeds if and only if the docking
point nearest to `point` (ties resolved to the left-lower one) is within
tolerance and currently unconnected; it raises a ConnectionError otherwise,
even when the other docking point is within tolerance and unconnected. -/
theorem c3_connect_amended (e : EP) (a : Point) (tol : ℝ) :
    (connectEP e a tol).isSome ↔
      ((distance_two a e.ll ≤ distance_two a e.ru ∧
          distance_two a e.ll ≤ tol ∧ e.cll = false) ∨
       (distance_two a e.ru < distance_two a e.ll ∧
          distance_two a e.ru ≤ tol ∧ e.cru = false)) := by
  rcases le_or_lt (distance_two a e.ll) (distance_two a e.ru) with h | h
  · by_cases hc : distance_two a e.ll ≤ tol ∧ e.cll = false
    · simp [connectEP, h, hc, not_lt.mpr h]
    · simp [connectEP, h, hc, not_lt.mpr h]
  · by_cases hc : distance_two a e.ru ≤ tol ∧ e.cru = false
    · simp [connectEP, not_le.mpr h, h, hc]
    · simp [connectEP, not_le.mpr h, h, hc]

/-! ## C6: straight-section endpoints -/

theorem roundHE_intCast (z : ℤ) : roundHE (z : ℝ) = z := by
  unfold roundHE
  rw [Int.fract_intCast, if_neg (by norm_num), round_intCast]

theorem nround_one : nround 1 = 1 := by
  unfold nround
  rw [show (1 : ℝ) * 10 ^ 10 = ((10 ^ 10 : ℤ) : ℝ) by norm_num, roundHE_intCast]
  norm_num

theorem nround_zero : nround 0 = 0 := by
  unfold nround
  rw [show (0 : ℝ) * 10 ^ 10 = ((0 : ℤ) : ℝ) by norm_num, roundHE_intCast]
  norm_num

theorem nround_half : nround (1 / 2) = 1 / 2 := by
  unfold nround
  rw [show (1 / 2 : ℝ) * 10 ^ 10 = ((5000000000 : ℤ) : ℝ) by norm_num, roundHE_intCast]
  norm_num

/-- Lemma: `sort_endpoints` returns the input pair in one of its two orders. -/
theorem sort_endpoints_cases (p q : Point) :
    sort_endpoints p q = (p, q) ∨ sort_endpoints p q = (q, p) := by
  unfold sort_endpoints
  split_ifs <;> simp

/-- Closed form of the straight section's endpoints: the unsorted endpoint
pair is the anchor itself and the anchor displaced by `|length|` along the
ROUNDED direction vector of the heading. -/
theorem straightEndpoints_eval (angle length gap width : ℝ) (anchor : Point) :
    straightEndpoints angle length gap width anchor
      = sort_endpoints anchor
          (nround (Real.cos (to_rad angle)) * |length| + anchor.1,
           nround (Real.sin (to_rad angle)) * |length| + anchor.2) := by
  show sort_endpoints _ _ = _
  congr 1
  · simp only [rotate_vec, center_two, Prod.mk_add_mk]
    apply Prod.ext <;> simp <;> ring
  · simp only [rotate_vec, center_two, Prod.mk_add_mk]
    apply Prod.ext <;> simp <;> ring

theorem sqrt3_gt : (1.7320508075 : ℝ) < Real.sqrt 3 :=
  (Real.lt_sqrt (by norm_num)).mpr (by norm_num)

theorem sqrt3_lt : Real.sqrt 3 < (1.7320508076 : ℝ) :=
  (Real.sqrt_lt' (by norm_num)).mpr (by norm_num)

theorem irrational_sqrt_three : Irrational (Real.sqrt 3) := by
  have h3 : Nat.Prime 3 := by norm_num
  simpa using h3.irrational_sqrt

/-- Value of `np.round(cos 30°, 10)` at integer scale: the rounded value of
`√3/2 · 10^10 ≈ 8660254037.844` is `8660254038`. -/
theorem roundHE_sqrt3 : roundHE (Real.sqrt 3 / 2 * 10 ^ 10) = 8660254038 := by
  have hfr : Int.fract (Real.sqrt 3 / 2 * 10 ^ 10) ≠ 1 / 2 := by
    intro hfr
    have hx : Real.sqrt 3 / 2 * 10 ^ 10 - (⌊Real.sqrt 3 / 2 * 10 ^ 10⌋ : ℝ) = 1 / 2 := by
      rw [Int.self_sub_floor]
      exact hfr
    set k := ⌊Real.sqrt 3 / 2 * 10 ^ 10⌋ with hk
    have hsq : Real.sqrt 3 = (2 * (k : ℝ) + 1) / 10 ^ 10 := by nlinarith [hx]
    exact irrational_sqrt_three
      ⟨(2 * (k : ℚ) + 1) / 10 ^ 10, by rw [hsq]; push_cast; ring⟩
  have hfl : ⌊Real.sqrt 3 / 2 * 10 ^ 10 + 1 / 2⌋ = 8660254038 := by
    rw [Int.floor_eq_iff]
    constructor
    · push_cast; nlinarith [sqrt3_gt]
    · push_cast; nlinarith [sqrt3_lt]
  unfold roundHE
  rw [if_neg hfr, round_eq, hfl]

theorem nround_cos30 : nround (Real.sqrt 3 / 2) = (8660254038 : ℝ) / 10 ^ 10 := by
  unfold nround
  rw [roundHE_sqrt3]
  norm_num

/-- C6, refuted as stated: for the Straight with heading 30°, length 100,
gap 5, width 4 and anchor (0,0), the rounding of the rotation-matrix
entries makes the endpoint distance exceed 100 by about 1.35e-9, violating
the claimed 1e-10 tolerance. -/
theorem c6_straight_endpoints_counterexample :
    ¬ (abs (distance_two (straightEndpoints 30 100 5 4 ((0 : ℝ), (0 : ℝ))).1
          (straightEndpoints 30 100 5 4 ((0 : ℝ), (0 : ℝ))).2 - |(100 : ℝ)|)
        ≤ 1 / 10 ^ 10) := by
  have ht : to_rad 30 = Real.pi / 6 := by unfold to_rad; ring
  have hc : nround (Real.cos (to_rad 30)) = (8660254038 : ℝ) / 10 ^ 10 := by
    rw [ht, Real.cos_pi_div_six, nround_cos30]
  have hs : nround (Real.sin (to_rad 30)) = 1 / 2 := by
    rw [ht, Real.sin_pi_div_six, nround_half]
  have hEP : straightEndpoints 30 100 5 4 ((0 : ℝ), (0 : ℝ))
      = (((0 : ℝ), (0 : ℝ)), ((8660254038 / 10 ^ 8 : ℝ), (50 : ℝ))) := by
    rw [straightEndpoints_eval, hc, hs]
    rw [show ((8660254038 : ℝ) / 10 ^ 10 * |(100 : ℝ)| + ((0 : ℝ), (0 : ℝ)).1,
        (1 / 2 : ℝ) * |(100 : ℝ)| + ((0 : ℝ), (0 : ℝ)).2)
        = (((8660254038 / 10 ^ 8 : ℝ)), (50 : ℝ)) by
      apply Prod.ext <;> norm_num]
    unfold sort_endpoints
    norm_num
  rw [hEP]
  intro habs
  have hged : 100 + 1 / 10 ^ 10
      < distance_two ((0 : ℝ), (0 : ℝ)) ((8660254038 / 10 ^ 8 : ℝ), (50 : ℝ)) := by
    rw [distance_two]
    apply (Real.lt_sqrt (by norm_num)).mpr
    norm_num
  rw [show |(100 : ℝ)| = 100 by norm_num, abs_le] at habs
  linarith [habs.2]

/-- C6, amended: whenever the 10-decimal rounding of the heading's cosine
and sine is exact (in particular at headings that are multiples of 90°),
the distance between the two canonical endpoints of a Straight equals |L|
exactly, and both endpoints lie exactly on the line through the anchor at
the heading angle.  For headings with inexactly-rounded direction entries
the distance deviates from |L| proportionally to |L| and can exceed the
claimed 1e-10 bound (see the counterexample). -/
theorem c6_straight_endpoints_amended (angle length gap width : ℝ) (anchor : Point)
    (hc : nround (Real.cos (to_rad angle)) = Real.cos (to_rad angle))
    (hs : nround (Real.sin (to_rad angle)) = Real.sin (to_rad angle)) :
    distance_two (straightEndpoints angle length gap width anchor).1
        (straightEndpoints angle length gap width anchor).2 = |length| ∧
    onLine (straightEndpoints angle length gap width anchor).1 anchor (to_rad angle) ∧
    onLine (straightEndpoints angle length gap width anchor).2 anchor (to_rad angle) := by
  rw [straightEndpoints_eval, hc, hs]
  have hcs : Real.cos (to_rad angle) ^ 2 + Real.sin (to_rad angle) ^ 2 = 1 :=
    Real.cos_sq_add_sin_sq (to_rad angle)
  have honA : onLine anchor anchor (to_rad angle) := by
    exact ⟨0, by apply Prod.ext <;> simp⟩
  have honB : onLine (Real.cos (to_rad angle) * |length| + anchor.1,
      Real.sin (to_rad angle) * |length| + anchor.2) anchor (to_rad angle) := by
    refine ⟨|length|, ?_⟩
    apply Prod.ext <;> simp <;> ring
  have hdsq : (anchor.1 - (Real.cos (to_rad angle) * |length| + anchor.1)) ^ 2
      + (anchor.2 - (Real.sin (to_rad angle) * |length| + anchor.2)) ^ 2
      = length ^ 2 := by
    have hexp : (anchor.1 - (Real.cos (to_rad angle) * |length| + anchor.1)) ^ 2
        + (anchor.2 - (Real.sin (to_rad angle) * |length| + anchor.2)) ^ 2
        = (Real.cos (to_rad angle) ^ 2 + Real.sin (to_rad angle) ^ 2) * |length| ^ 2 := by
      ring
    rw [hexp, hcs, one_mul, sq_abs]
  rcases sort_endpoints_cases anchor
      (Real.cos (to_rad angle) * |length| + anchor.1,
       Real.sin (to_rad angle) * |length| + anchor.2) with hq | hq
  · rw [hq]
    refine ⟨?_, honA, honB⟩
    rw [distance_two]
    simp only
    rw [hdsq, Real.sqrt_sq_eq_abs]
  · rw [hq]
    refine ⟨?_, honB, honA⟩
    rw [distance_two]
    simp only
    rw [show ((Real.cos (to_rad angle) * |length| + anchor.1,
        Real.sin (to_rad angle) * |length| + anchor.2) : Point).1 - anchor.1
        = -(anchor.1 - (Real.cos (to_rad angle) * |length| + anchor.1)) by ring,
      show ((Real.cos (to_rad angle) * |length| + anchor.1,
        Real.sin (to_rad angle) * |length| + anchor.2) : Point).2 - anchor.2
        = -(anchor.2 - (Real.sin (to_rad angle) * |length| + anchor.2)) by ring,
      neg_sq, neg_sq, hdsq, Real.sqrt_sq_eq_abs]

/-- Witness for `c6_straight_endpoints_amended` at Scenario A: heading 0°,
length 100, gap 5, width 4, anchor (0,0), where additionally the canonical
endpoints are exactly (0,0) and (100,0). -/
theorem c6_straight_endpoints_witness :
    nround (Real.cos (to_rad 0)) = Real.cos (to_rad 0) ∧
    nround (Real.sin (to_rad 0)) = Real.sin (to_rad 0) ∧
    (distance_two (straightEndpoints 0 100 5 4 ((0 : ℝ), (0 : ℝ))).1
        (straightEndpoints 0 100 5 4 ((0 : ℝ), (0 : ℝ))).2 = |(100 : ℝ)| ∧
      onLine (straightEndpoints 0 100 5 4 ((0 : ℝ), (0 : ℝ))).1
        ((0 : ℝ), (0 : ℝ)) (to_rad 0) ∧
      onLine (straightEndpoints 0 100 5 4 ((0 : ℝ), (0 : ℝ))).2
        ((0 : ℝ), (0 : ℝ)) (to_rad 0)) ∧
    straightEndpoints 0 100 5 4 ((0 : ℝ), (0 : ℝ))
      = (((0 : ℝ), (0 : ℝ)), ((100 : ℝ), (0 : ℝ))) := by
  have ht : to_rad 0 = 0 := by simp [to_rad]
  have hc : nround (Real.cos (to_rad 0)) = Real.cos (to_rad 0) := by
    rw [ht, Real.cos_zero, nround_one]
  have hs : nround (Real.sin (to_rad 0)) = Real.sin (to_rad 0) := by
    rw [ht, Real.sin_zero, nround_zero]
  refine ⟨hc, hs, c6_straight_endpoints_amended 0 100 5 4 ((0 : ℝ), (0 : ℝ)) hc hs, ?_⟩
  rw [straightEndpoints_eval, hc, hs, ht, Real.cos_zero, Real.sin_zero]
  rw [show (1 : ℝ) * |(100 : ℝ)| + ((0 : ℝ), (0 : ℝ)).1 = 100 by norm_num]
  rw [show (0 : ℝ) * |(100 : ℝ)| + ((0 : ℝ), (0 : ℝ)).2 = 0 by norm_num]
  unfold sort_endpoints
  norm_num

/-! ## C10: the pad's docking points -/

/-- C10: both docking points of a pad's endpoint pair are exactly the pad's
anchor, and whenever at least one docking point is unconnected,
`get_unconnected` hands a consumer the anchor coordinate as the open end,
regardless of which docking point is still unconnected. -/
theorem c10_pad_docking_points (a : Point) :
    (padEndpoints a).ll = a ∧ (padEndpoints a).ru = a ∧
    ∀ b1 b2 : Bool, ¬(b1 = true ∧ b2 = true) →
      (get_unconnected ⟨a, a, b1, b2⟩).1 = some a := by
  refine ⟨rfl, rfl, ?_⟩
  intro b1 b2 hb
  cases b1 <;> cases b2 <;> simp [get_unconnected] at hb ⊢

/-- Witness for `c10_pad_docking_points`: the pad at the origin with its
left-lower docking point already connected still reports the anchor as the
open end. -/
theorem c10_pad_docking_points_witness :
    (padEndpoints ((0 : ℝ), (0 : ℝ))).ll = ((0 : ℝ), (0 : ℝ)) ∧
    (get_unconnected ⟨((0 : ℝ), (0 : ℝ)), ((0 : ℝ), (0 : ℝ)), true, false⟩).1
      = some ((0 : ℝ), (0 : ℝ)) :=
  ⟨(c10_pad_docking_points ((0 : ℝ), (0 : ℝ))).1,
   (c10_pad_docking_points ((0 : ℝ), (0 : ℝ))).2.2 true false (by simp)⟩

end AutoMD
